import Mathlib

/-!
Shallow embedding of src/action/eleventy/data.js: the hashing / materializing /
aggregation pipeline and the readability-cache reconciler of the feed action.

Modelling conventions:
* The Hasher (createHash, a sha256 hex digest from the external crypto
  library) is modelled as an arbitrary pure function parameter
  `hash : String → String`; determinism is the only property the code and the
  spec rely on, and a Lean function is deterministic by construction.
* Each output directory is modelled as an association list from file name to
  the (parsed) JSON value stored in the file; `writeFile` overwrites in place
  when the name already exists, otherwise appends.
* Thrown JavaScript errors are modelled by `Except JsError`; a Node system
  error (from fs or JSON.parse) is a structured object carrying a code, never
  the primitive string that the top level compares against.
* Numbers (dates) are modelled as `Int`; the sort comparator
  `(a, b) => b.date - a.date` of Array.prototype.sort (a stable sort) is
  embedded as `List.mergeSort` with the induced boolean order.
-/

/-- Raw feed entry as parsed from a site feed JSON file
(`import('../feeds/parsers').Entry`). -/
structure Entry where
  title : String
  link : String
  date : Int
  author : String
deriving DecidableEq

/-- Fully qualified entry record (`EntryData` in data.js): the raw entry plus
site context, the derived entry hash, and the optional readability content
that the cache reconciler adds. -/
structure EntryData where
  title : String
  link : String
  date : Int
  author : String
  siteTitle : String
  siteHash : String
  entryHash : String
  category : String
  content : Option String := none
deriving DecidableEq

/-- Entry summary embedded in site, category and global index files
(`SiteEntryData` in data.js). -/
structure SiteEntryData where
  title : String
  link : String
  date : Int
  author : String
  category : String
  siteTitle : String
  siteHash : String
  entryHash : String
deriving DecidableEq

/-- Site summary without entries (`SiteData` in data.js). -/
structure SiteData where
  title : String
  link : String
  updatedAt : Int
  siteHash : String
deriving DecidableEq

/-- Site record with its entry summaries (`SiteDataWithEntries` in data.js). -/
structure SiteDataWithEntries where
  title : String
  link : String
  updatedAt : Int
  siteHash : String
  entries : List SiteEntryData
deriving DecidableEq

/-- Per-category record (`CategoryData` in data.js). -/
structure CategoryData where
  name : String
  sites : List SiteData
deriving DecidableEq

/-- Parsed content of one site source file
(`import('../feeds/parsers').Site`): title, link, updatedAt and the ordered
raw entries. -/
structure SiteJson where
  title : String
  link : String
  updatedAt : Int
  entries : List Entry
deriving DecidableEq

/-- A directory of JSON files: an association list from file name to stored
value, in directory-enumeration order. -/
abbrev Store (α : Type) : Type := List (String × α)

/-- Model of fs.writeFileSync into a directory: overwrite the value in place
when the file already exists, otherwise append the new file. -/
def writeFile (s : Store α) (name : String) (v : α) : Store α :=
  if s.any (fun q => decide (q.1 = name)) then
    s.map (fun q => if q.1 = name then (name, v) else q)
  else
    s ++ [(name, v)]

/-- Model of reading one file from a directory: the value stored under the
first occurrence of the name, if any. -/
def readStore (s : Store α) (name : String) : Option α :=
  (s.find? (fun q => decide (q.1 = name))).map (fun q => q.2)

/-- Pure part of createEntryData (src/action/eleventy/data.js:151-163): the
fully qualified record, with identifier
`entryHash = hash (title ++ "," ++ link)`. -/
def mkEntryData (hash : String → String) (category siteTitle siteHash : String)
    (entry : Entry) : EntryData :=
  { title := entry.title
    link := entry.link
    date := entry.date
    author := entry.author
    siteTitle := siteTitle
    siteHash := siteHash
    entryHash := hash (entry.title ++ "," ++ entry.link)
    category := category }

/-- createEntryData (src/action/eleventy/data.js:151-169): build the record
and persist it in the entries store under the file named by its identifier. -/
def createEntryData (hash : String → String) (es : Store EntryData)
    (category siteTitle siteHash : String) (entry : Entry) :
    EntryData × Store EntryData :=
  let data := mkEntryData hash category siteTitle siteHash entry
  (data, writeFile es (data.entryHash ++ ".json") data)

/-- C1: the entry identifier produced by createEntryData is
`hash (title ++ "," ++ link)`; the persisted record is written under the file
named by that identifier; and two raw entries agreeing on (title, link) get
the same identifier regardless of their author, date, or site context. -/
theorem c1_entry_identifier (hash : String → String) (es es2 : Store EntryData)
    (cat st sh cat2 st2 sh2 : String) (e1 e2 : Entry) :
    (createEntryData hash es cat st sh e1).1.entryHash
        = hash (e1.title ++ "," ++ e1.link)
    ∧ (createEntryData hash es cat st sh e1).2
        = writeFile es ((createEntryData hash es cat st sh e1).1.entryHash ++ ".json")
            (createEntryData hash es cat st sh e1).1
    ∧ (e1.title = e2.title → e1.link = e2.link →
        (createEntryData hash es2 cat2 st2 sh2 e2).1.entryHash
          = (createEntryData hash es cat st sh e1).1.entryHash) := by
  refine ⟨rfl, rfl, ?_⟩
  intro ht hl
  simp [createEntryData, mkEntryData, ht, hl]

/-- Concrete deterministic stand-in for the sha256 hex digest, used to
instantiate witnesses. -/
def hashModel : String → String := fun s => s ++ "#h"

/-- Witness for C1: two raw entries with the same (title, link) but different
date, author, category and site context get the same identifier. -/
theorem c1_entry_identifier_witness :
    (createEntryData hashModel [] "tech" "Site A" "sa" ⟨"E1", "https://a/1", 100, "x"⟩).1.entryHash
      = (createEntryData hashModel [] "news" "Site B" "sb" ⟨"E1", "https://a/1", 200, "y"⟩).1.entryHash :=
  (c1_entry_identifier hashModel [] [] "news" "Site B" "sb" "tech" "Site A" "sa"
    ⟨"E1", "https://a/1", 200, "y"⟩ ⟨"E1", "https://a/1", 100, "x"⟩).2.2 rfl rfl

/-- Boolean order induced by the comparator `(a, b) => b.date - a.date`: the
comparator is nonpositive exactly when `b.date ≤ a.date`, so the sorted order
is date-descending. -/
def dateDescLE (a b : SiteEntryData) : Bool := decide (b.date ≤ a.date)

/-- Model of `.sort((a, b) => b.date - a.date)` on an entry-summary array:
Array.prototype.sort is a stable sort (ES2019), embedded as the stable
`List.mergeSort` under `dateDescLE`. Used by createSitesData
(data.js:220), createAllEntriesData (data.js:253) and createCategoryData
(data.js:352). -/
def sortByDateDesc (xs : List SiteEntryData) : List SiteEntryData :=
  xs.mergeSort dateDescLE

/-- Entry summary embedded by createSitesData (data.js:209-218) for a
materialized entry of a site. -/
def toSummary (category siteTitle siteHash : String) (d : EntryData) :
    SiteEntryData :=
  { title := d.title
    link := d.link
    date := d.date
    author := d.author
    category := category
    siteTitle := siteTitle
    siteHash := siteHash
    entryHash := d.entryHash }

/-- Site identifier computed by createSitesData (data.js:191):
`createHash(site.substring(0, site.length - '.json'.length))`, a function of
the source file name only. JavaScript's substring clamps a negative end index
to 0, which Nat subtraction mirrors. -/
def siteHashOfFile (hash : String → String) (siteFile : String) : String :=
  hash (siteFile.take (siteFile.length - 5))

/-- Materialize the entries of one site in feed order (the `.map` of
data.js:200-219), threading the entries store; returns the summaries and the
updated store. -/
def materializeEntries (hash : String → String) (category siteTitle siteHash : String)
    (es : Store EntryData) : List Entry → List SiteEntryData × Store EntryData
  | [] => ([], es)
  | e :: rest =>
    let r := createEntryData hash es category siteTitle siteHash e
    let tail := materializeEntries hash category siteTitle siteHash r.2 rest
    (toSummary category siteTitle siteHash r.1 :: tail.1, tail.2)

/-- createSitesData (data.js:179-229) for one category: each site source file
(here given with its already-parsed JSON content; an unreadable or malformed
file is a fatal phase error, see prepareEleventyData) is hashed by file base
name, its entries are materialized into the entries store, the summaries are
sorted date-descending, and the site record is persisted in the sites store.
Returns the site records plus the updated entries and sites stores. -/
def createSitesData (hash : String → String) (category : String)
    (es : Store EntryData) (ss : Store SiteDataWithEntries) :
    List (String × SiteJson) →
      List SiteDataWithEntries × Store EntryData × Store SiteDataWithEntries
  | [] => ([], es, ss)
  | (siteFile, json) :: rest =>
    let siteHash := siteHashOfFile hash siteFile
    let m := materializeEntries hash category json.title siteHash es json.entries
    let data : SiteDataWithEntries :=
      { title := json.title
        link := json.link
        updatedAt := json.updatedAt
        siteHash := siteHash
        entries := sortByDateDesc m.1 }
    let ss2 := writeFile ss (siteHash ++ ".json") data
    let tail := createSitesData hash category m.2 ss2 rest
    (data :: tail.1, tail.2)

/-- C8: the site identifiers assigned by createSitesData are a function of the
source file names alone: for any parsed contents whatsoever, the identifier
list is the hash of each file base name (the name with its trailing 5
characters, ".json", removed); in particular two site files with the same
name but different titles, links, update times or entries get the same
identifier. -/
theorem c8_site_identifier (hash : String → String) (category : String)
    (es : Store EntryData) (ss : Store SiteDataWithEntries)
    (sites : List (String × SiteJson)) :
    (createSitesData hash category es ss sites).1.map (fun d => d.siteHash)
      = sites.map (fun p => hash (p.1.take (p.1.length - 5))) := by
  induction sites generalizing es ss with
  | nil => rfl
  | cons p rest ih =>
    obtain ⟨siteFile, json⟩ := p
    simp [createSitesData, siteHashOfFile, ih]

/-- The date-descending order is transitive. -/
theorem dateDescLE_trans (a b c : SiteEntryData) :
    dateDescLE a b → dateDescLE b c → dateDescLE a c := by
  simp only [dateDescLE, decide_eq_true_eq]
  omega

/-- The date-descending order is total. -/
theorem dateDescLE_total (a b : SiteEntryData) :
    dateDescLE a b || dateDescLE b a := by
  simp only [dateDescLE, Bool.or_eq_true, decide_eq_true_eq]
  omega

/-- C7: the date-descending sort used by the Site Materializer
(createSitesData, data.js:220), the Category Aggregator (createCategoryData,
data.js:352) and the Global Entry Index (createAllEntriesData, data.js:253)
is stable: the subsequence of entries carrying any fixed date is unchanged by
sorting, i.e. equal-date entries keep their original relative order, with no
secondary tie-breaking key. -/
theorem c7_sort_stability (xs : List SiteEntryData) (d : Int) :
    (sortByDateDesc xs).filter (fun e => decide (e.date = d))
      = xs.filter (fun e => decide (e.date = d)) := by
  have hmem : ∀ e ∈ xs.filter (fun e => decide (e.date = d)), e.date = d := by
    intro e he
    simpa using (List.of_mem_filter he)
  have hpair : (xs.filter (fun e => decide (e.date = d))).Pairwise
      (fun a b => dateDescLE a b) := by
    apply List.pairwise_of_forall_mem_list
    intro a ha b hb
    simp only [dateDescLE, decide_eq_true_eq, hmem a ha, hmem b hb]
    exact Int.le_refl d
  have hsub : List.Sublist (xs.filter (fun e => decide (e.date = d)))
      (sortByDateDesc xs) :=
    List.sublist_mergeSort dateDescLE_trans dateDescLE_total hpair
      (List.filter_sublist xs)
  have hsub2 : List.Sublist (xs.filter (fun e => decide (e.date = d)))
      ((sortByDateDesc xs).filter (fun e => decide (e.date = d))) := by
    have h2 := hsub.filter (fun e => decide (e.date = d))
    rwa [List.filter_filter, show
      (fun e : SiteEntryData => decide (e.date = d) && decide (e.date = d))
        = fun e : SiteEntryData => decide (e.date = d) from by
      funext e; cases decide (e.date = d) <;> rfl] at h2
  have hperm : List.Perm
      ((sortByDateDesc xs).filter (fun e => decide (e.date = d)))
      (xs.filter (fun e => decide (e.date = d))) :=
    (List.mergeSort_perm xs dateDescLE).filter (fun e => decide (e.date = d))
  exact (hsub2.eq_of_length hperm.length_eq.symm).symm

/-- Projection of a stored entry record to the summary shape written into
all.json (data.js:241-250). -/
def projectEntry (d : EntryData) : SiteEntryData :=
  { title := d.title
    link := d.link
    date := d.date
    author := d.author
    siteTitle := d.siteTitle
    siteHash := d.siteHash
    entryHash := d.entryHash
    category := d.category }

/-- createAllEntriesData (data.js:231-256): read every file of the entries
store in directory order, project each record down to a summary, and sort
date-descending; the returned list is the content written to all.json. -/
def createAllEntriesData (es : Store EntryData) : List SiteEntryData :=
  sortByDateDesc (es.map (fun q => projectEntry q.2))

/-- Site summary (entries omitted) embedded in the master category index
(data.js:339-344). -/
def toSiteData (d : SiteDataWithEntries) : SiteData :=
  { title := d.title, link := d.link, updatedAt := d.updatedAt
    siteHash := d.siteHash }

/-- createCategoryData (data.js:327-361): for each category directory (given
with its site files and their parsed contents), materialize the sites, write
the per-category entry index (all site entries concatenated then sorted
date-descending) into the category store, and collect the category summary.
Returns the master category index (written at the end to both the embedded
and the general data destination), the category store, and the updated
entries and sites stores. -/
def createCategoryData (hash : String → String)
    (es : Store EntryData) (ss : Store SiteDataWithEntries)
    (cs : Store (List SiteEntryData)) :
    List (String × List (String × SiteJson)) →
      List CategoryData × Store (List SiteEntryData)
        × Store EntryData × Store SiteDataWithEntries
  | [] => ([], cs, es, ss)
  | (category, sites) :: rest =>
    let r := createSitesData hash category es ss sites
    let categoryData : CategoryData :=
      { name := category, sites := r.1.map toSiteData }
    let categoryEntries := sortByDateDesc (r.1.flatMap (fun d => d.entries))
    let cs2 := writeFile cs (category ++ ".json") categoryEntries
    let tail := createCategoryData hash r.2.1 r.2.2 cs2 rest
    (categoryData :: tail.1, tail.2)

/-- Writing a file and reading the same name back yields the written value. -/
theorem readStore_writeFile_self (s : Store α) (n : String) (v : α) :
    readStore (writeFile s n v) n = some v := by
  unfold writeFile readStore
  by_cases h : s.any (fun q => decide (q.1 = n)) = true
  · simp only [h, if_true, List.find?_map]
    have hpred : ((fun q : String × α => decide (q.1 = n))
          ∘ (fun q : String × α => if q.1 = n then (n, v) else q))
        = fun q : String × α => decide (q.1 = n) := by
      funext q; by_cases hq : q.1 = n <;> simp [hq]
    rw [hpred]
    have hex : ∃ q, q ∈ s ∧ decide (q.1 = n) = true := by
      simpa [List.any_eq_true] using h
    have hs : (s.find? (fun q => decide (q.1 = n))).isSome := by
      rw [List.find?_isSome]; exact hex
    obtain ⟨q1, hq1⟩ := Option.isSome_iff_exists.mp hs
    have hq1n : q1.1 = n := by simpa using List.find?_some hq1
    simp [hq1, hq1n]
  · simp only [h, if_false, Bool.false_eq_true, List.find?_append]
    have hnone : s.find? (fun q => decide (q.1 = n)) = none := by
      rw [List.find?_eq_none]
      intro q hq hc
      exact h (List.any_eq_true.mpr ⟨q, hq, hc⟩)
    simp [hnone]

/-- Writing a file leaves every other file of the directory unchanged. -/
theorem readStore_writeFile_ne (s : Store α) (n m : String) (v : α)
    (hne : m ≠ n) : readStore (writeFile s n v) m = readStore s m := by
  unfold writeFile readStore
  by_cases h : s.any (fun q => decide (q.1 = n)) = true
  · simp only [h, if_true, List.find?_map]
    have hpred : ((fun q : String × α => decide (q.1 = m))
          ∘ (fun q : String × α => if q.1 = n then (n, v) else q))
        = fun q : String × α => decide (q.1 = m) := by
      funext q
      by_cases hq : q.1 = n
      · simp [hq, fun hc : n = m => hne hc.symm]
      · simp [hq]
    rw [hpred]
    cases hf : s.find? (fun q => decide (q.1 = m)) with
    | none => rfl
    | some q1 =>
      have hq1m : q1.1 = m := by simpa using List.find?_some hf
      have : q1.1 ≠ n := by rw [hq1m]; exact hne
      simp [this]
  · simp only [h, if_false, Bool.false_eq_true, List.find?_append]
    have : ((n, v) : String × α).1 ≠ m := fun hc => hne hc.symm
    simp [List.find?, this]

/-- Writing a file preserves the set of file names, appending the new name
only when it was absent. -/
theorem keys_writeFile (s : Store α) (n : String) (v : α) :
    (writeFile s n v).map (fun q => q.1)
      = if s.any (fun q => decide (q.1 = n)) then s.map (fun q => q.1)
        else s.map (fun q => q.1) ++ [n] := by
  unfold writeFile
  by_cases h : s.any (fun q => decide (q.1 = n)) = true
  · simp only [h, if_true, List.map_map]
    congr 1
    funext q
    by_cases hq : q.1 = n <;> simp [hq]
  · simp [h]

/-- Writing a file keeps directory file names duplicate-free. -/
theorem nodup_keys_writeFile (s : Store α) (n : String) (v : α)
    (h : (s.map (fun q => q.1)).Nodup) :
    ((writeFile s n v).map (fun q => q.1)).Nodup := by
  rw [keys_writeFile]
  by_cases hc : s.any (fun q => decide (q.1 = n)) = true
  · simpa [hc] using h
  · have hnot : n ∉ s.map (fun q => q.1) := by
      intro hmem
      obtain ⟨q, hq, hqn⟩ := List.mem_map.mp hmem
      exact hc (List.any_eq_true.mpr ⟨q, hq, by simpa using hqn⟩)
    simp only [hc, if_false, Bool.false_eq_true]
    simp [List.nodup_append, h, hnot]

/-- Apply a sequence of file writes to a directory, in order. -/
def applyWrites (s : Store α) : List (String × α) → Store α
  | [] => s
  | w :: rest => applyWrites (writeFile s w.1 w.2) rest

/-- The value of the last write targeting a given file name, if any. -/
def lastWriteTo (ws : List (String × α)) (k : String) : Option α :=
  ((ws.filter (fun q => decide (q.1 = k))).getLast?).map (fun q => q.2)

/-- A sequence of writes leaves each file holding the value of the last write
to its name, or its prior content when no write targeted it. -/
theorem readStore_applyWrites (ws : List (String × α)) (s : Store α)
    (k : String) :
    readStore (applyWrites s ws) k = (lastWriteTo ws k).or (readStore s k) := by
  induction ws generalizing s with
  | nil => simp [applyWrites, lastWriteTo]
  | cons w rest ih =>
    obtain ⟨n, v⟩ := w
    show readStore (applyWrites (writeFile s n v) rest) k = _
    rw [ih]
    by_cases hn : n = k
    · subst hn
      cases hf : rest.filter (fun q => decide (q.1 = n)) with
      | nil =>
        have h1 : lastWriteTo rest n = none := by rw [lastWriteTo, hf]; rfl
        have h2 : lastWriteTo ((n, v) :: rest) n = some v := by
          rw [lastWriteTo, List.filter_cons]
          simp [hf]
        rw [h1, h2]
        simp [readStore_writeFile_self]
      | cons a l =>
        have h2 : lastWriteTo ((n, v) :: rest) n = lastWriteTo rest n := by
          rw [lastWriteTo, lastWriteTo, List.filter_cons]
          simp [hf]
        have hs : (lastWriteTo rest n).isSome := by
          rw [lastWriteTo, hf]
          simp
        obtain ⟨w0, hw0⟩ := Option.isSome_iff_exists.mp hs
        rw [h2, hw0]
        simp
    · have h2 : lastWriteTo ((n, v) :: rest) k = lastWriteTo rest k := by
        rw [lastWriteTo, lastWriteTo, List.filter_cons]
        simp [hn]
      rw [h2, readStore_writeFile_ne s n k v (fun hc => hn hc.symm)]

/-- A sequence of writes keeps directory file names duplicate-free. -/
theorem nodup_keys_applyWrites (ws : List (String × α)) (s : Store α)
    (h : (s.map (fun q => q.1)).Nodup) :
    ((applyWrites s ws).map (fun q => q.1)).Nodup := by
  induction ws generalizing s with
  | nil => exact h
  | cons w rest ih => exact ih _ (nodup_keys_writeFile s w.1 w.2 h)

/-- Writes decompose over list concatenation. -/
theorem applyWrites_append (w1 w2 : List (String × α)) (s : Store α) :
    applyWrites s (w1 ++ w2) = applyWrites (applyWrites s w1) w2 := by
  induction w1 generalizing s with
  | nil => rfl
  | cons w rest ih => simp [applyWrites, ih]

/-- The sequence of entry-store writes performed while processing one
category: for each site, in feed order, the file named by the entry
identifier together with the materialized record. -/
def entryWrites (hash : String → String) (category : String)
    (sites : List (String × SiteJson)) : List (String × EntryData) :=
  sites.flatMap (fun p =>
    p.2.entries.map (fun e =>
      ((mkEntryData hash category p.2.title (siteHashOfFile hash p.1) e).entryHash
          ++ ".json",
        mkEntryData hash category p.2.title (siteHashOfFile hash p.1) e)))

/-- The sequence of entry-store writes across all categories, in processing
order. -/
def categoryEntryWrites (hash : String → String)
    (cats : List (String × List (String × SiteJson))) :
    List (String × EntryData) :=
  cats.flatMap (fun c => entryWrites hash c.1 c.2)

/-- Materializing a site's entries updates the entries store by the
corresponding write sequence. -/
theorem materializeEntries_store (hash : String → String)
    (category siteTitle siteHash : String) (es : Store EntryData)
    (entries : List Entry) :
    (materializeEntries hash category siteTitle siteHash es entries).2
      = applyWrites es (entries.map (fun e =>
          ((mkEntryData hash category siteTitle siteHash e).entryHash ++ ".json",
            mkEntryData hash category siteTitle siteHash e))) := by
  induction entries generalizing es with
  | nil => rfl
  | cons e rest ih =>
    simp [materializeEntries, createEntryData, applyWrites, ih]

/-- createSitesData updates the entries store by exactly the category's
entry-write sequence. -/
theorem createSitesData_store (hash : String → String) (category : String)
    (es : Store EntryData) (ss : Store SiteDataWithEntries)
    (sites : List (String × SiteJson)) :
    (createSitesData hash category es ss sites).2.1
      = applyWrites es (entryWrites hash category sites) := by
  induction sites generalizing es ss with
  | nil => rfl
  | cons p rest ih =>
    obtain ⟨siteFile, json⟩ := p
    simp only [createSitesData, entryWrites, List.flatMap_cons]
    rw [applyWrites_append, ← materializeEntries_store]
    exact ih _ _

/-- createCategoryData updates the entries store by the concatenation of all
categories' entry-write sequences, in processing order. -/
theorem createCategoryData_store (hash : String → String)
    (es : Store EntryData) (ss : Store SiteDataWithEntries)
    (cs : Store (List SiteEntryData))
    (cats : List (String × List (String × SiteJson))) :
    (createCategoryData hash es ss cs cats).2.2.1
      = applyWrites es (categoryEntryWrites hash cats) := by
  induction cats generalizing es ss cs with
  | nil => rfl
  | cons c rest ih =>
    obtain ⟨category, sites⟩ := c
    simp only [createCategoryData, categoryEntryWrites, List.flatMap_cons]
    rw [applyWrites_append, ← createSitesData_store hash category es ss sites]
    exact ih _ _ _

/-- A property of (name, value) pairs holding for every file of the directory
and for the written pair keeps holding after the write. -/
theorem writeFile_forall (s : Store α) (n : String) (v : α)
    (P : String × α → Prop) (hs : ∀ q ∈ s, P q) (hv : P (n, v)) :
    ∀ q ∈ writeFile s n v, P q := by
  intro q hq
  unfold writeFile at hq
  by_cases h : s.any (fun q => decide (q.1 = n)) = true
  · simp only [h, if_true, List.mem_map] at hq
    obtain ⟨q0, hq0, hq0e⟩ := hq
    by_cases hq0n : q0.1 = n
    · rw [← hq0e]; simpa [hq0n] using hv
    · rw [← hq0e]; simpa [hq0n] using hs q0 hq0
  · simp only [h, if_false, Bool.false_eq_true, List.mem_append,
      List.mem_singleton] at hq
    rcases hq with hq | hq
    · exact hs q hq
    · rw [hq]; exact hv

/-- A property holding for every existing file and every written pair keeps
holding after a sequence of writes. -/
theorem applyWrites_forall (ws : List (String × α)) (s : Store α)
    (P : String × α → Prop) (hs : ∀ q ∈ s, P q) (hw : ∀ q ∈ ws, P q) :
    ∀ q ∈ applyWrites s ws, P q := by
  induction ws generalizing s with
  | nil => exact hs
  | cons w rest ih =>
    refine ih _ (writeFile_forall s w.1 w.2 P hs ?_) ?_
    · simpa using hw w (List.mem_cons_self w rest)
    · exact fun q hq => hw q (List.mem_cons_of_mem w hq)

/-- Every entry-store write performed by the run targets the file named by the
written record's own identifier. -/
theorem categoryEntryWrites_key (hash : String → String)
    (cats : List (String × List (String × SiteJson))) :
    ∀ q ∈ categoryEntryWrites hash cats, q.1 = q.2.entryHash ++ ".json" := by
  intro q hq
  simp only [categoryEntryWrites, entryWrites, List.mem_flatMap,
    List.mem_map] at hq
  obtain ⟨c, hc, p, hp, e, he, rfl⟩ := hq
  rfl

/-- In a directory with duplicate-free file names, at most one file carries
any given name. -/
theorem length_filter_key_le_one (es : Store α) (k : String)
    (h : (es.map (fun q => q.1)).Nodup) :
    (es.filter (fun q => decide (q.1 = k))).length ≤ 1 := by
  induction es with
  | nil => simp
  | cons q rest ih =>
    have h2 : (q.1 :: rest.map (fun q => q.1)).Nodup := by
      rw [← List.map_cons]; exact h
    have hcons := List.nodup_cons.mp h2
    by_cases hk : q.1 = k
    · have hnil : rest.filter (fun r => decide (r.1 = k)) = [] := by
        rw [List.filter_eq_nil_iff]
        intro r hr hc
        apply hcons.1
        rw [hk, ← show r.1 = k by simpa using hc]
        exact List.mem_map_of_mem (fun q => q.1) hr
      simp [List.filter_cons, hk, hnil]
    · simpa [List.filter_cons, hk] using ih hcons.2

/-- C10: the entries store is keyed solely by the entry identifier. Starting
from an empty store, after a full pass over all categories: two raw entries
with equal (title, link), wherever they occur, are written to the same file;
every file of the final store holds exactly the value of the last write to
its name (so a later materialization with the same identifier — in a later
site or category — overwrites the earlier record, carrying the later site
and category); file names are duplicate-free, so the store carries at most
one record per identifier; and consequently the Global Entry Index contains
at most one summary per identifier. -/
theorem c10_store_keyed_by_identifier (hash : String → String)
    (cats : List (String × List (String × SiteJson))) :
    (∀ (cat1 st1 sh1 cat2 st2 sh2 : String) (e1 e2 : Entry),
        e1.title = e2.title → e1.link = e2.link →
        (mkEntryData hash cat1 st1 sh1 e1).entryHash
          = (mkEntryData hash cat2 st2 sh2 e2).entryHash)
    ∧ (∀ k, readStore (createCategoryData hash [] [] [] cats).2.2.1 k
          = lastWriteTo (categoryEntryWrites hash cats) k)
    ∧ ((createCategoryData hash [] [] [] cats).2.2.1.map (fun q => q.1)).Nodup
    ∧ (∀ k,
        ((createAllEntriesData (createCategoryData hash [] [] [] cats).2.2.1).filter
            (fun d => decide (d.entryHash ++ ".json" = k))).length ≤ 1) := by
  have hstore := createCategoryData_store hash [] [] [] cats
  have hnodup : ((createCategoryData hash [] [] [] cats).2.2.1.map
      (fun q => q.1)).Nodup := by
    rw [hstore]
    exact nodup_keys_applyWrites (categoryEntryWrites hash cats) [] (by simp)
  refine ⟨?_, ?_, hnodup, ?_⟩
  · intro cat1 st1 sh1 cat2 st2 sh2 e1 e2 ht hl
    simp [mkEntryData, ht, hl]
  · intro k
    rw [hstore, readStore_applyWrites]
    show _ = _
    cases lastWriteTo (categoryEntryWrites hash cats) k <;> rfl
  · intro k
    have hinv : ∀ q ∈ (createCategoryData hash [] [] [] cats).2.2.1,
        q.1 = q.2.entryHash ++ ".json" := by
      rw [hstore]
      exact applyWrites_forall (categoryEntryWrites hash cats) []
        (fun q => q.1 = q.2.entryHash ++ ".json") (by simp)
        (categoryEntryWrites_key hash cats)
    set es := (createCategoryData hash [] [] [] cats).2.2.1 with hes
    have hperm : ((createAllEntriesData es).filter
          (fun d => decide (d.entryHash ++ ".json" = k))).length
        = ((es.map (fun q => projectEntry q.2)).filter
          (fun d => decide (d.entryHash ++ ".json" = k))).length :=
      ((List.mergeSort_perm (es.map (fun q => projectEntry q.2))
        dateDescLE).filter (fun d => decide (d.entryHash ++ ".json" = k))).length_eq
    rw [hperm, List.filter_map, List.length_map]
    have hcongr : es.filter
          ((fun d : SiteEntryData => decide (d.entryHash ++ ".json" = k))
            ∘ (fun q : String × EntryData => projectEntry q.2))
        = es.filter (fun q => decide (q.1 = k)) := by
      apply List.filter_congr
      intro q hq
      simp only [Function.comp_apply, projectEntry]
      rw [← hinv q hq]
    rw [hcongr]
    exact length_filter_key_le_one es k hnodup

/-- Two categories whose sites share one (title, link) pair with different
dates, authors, titles and site files; concrete input for the C10 witness. -/
def witnessCats : List (String × List (String × SiteJson)) :=
  [("tech", [("a.json", ⟨"A", "https://a", 1, [⟨"E1", "https://a/1", 100, "x"⟩]⟩)]),
   ("news", [("b.json", ⟨"B", "https://b", 2, [⟨"E1", "https://a/1", 200, "y"⟩]⟩)])]

/-- Witness for C10: on two concrete categories sharing the (title, link)
pair, the two materializations target the same identifier and the final
store holds the last write to that identifier's file. -/
theorem c10_store_keyed_by_identifier_witness :
    (mkEntryData hashModel "tech" "A" "sa" ⟨"E1", "https://a/1", 100, "x"⟩).entryHash
      = (mkEntryData hashModel "news" "B" "sb" ⟨"E1", "https://a/1", 200, "y"⟩).entryHash
    ∧ readStore (createCategoryData hashModel [] [] [] witnessCats).2.2.1
          "E1,https://a/1#h.json"
      = lastWriteTo (categoryEntryWrites hashModel witnessCats)
          "E1,https://a/1#h.json" :=
  ⟨(c10_store_keyed_by_identifier hashModel witnessCats).1
      "tech" "A" "sa" "news" "B" "sb"
      ⟨"E1", "https://a/1", 100, "x"⟩ ⟨"E1", "https://a/1", 200, "y"⟩ rfl rfl,
   (c10_store_keyed_by_identifier hashModel witnessCats).2.1
      "E1,https://a/1#h.json"⟩

/-- A thrown JavaScript value: a Node system or parser error is a structured
object carrying a code and a message; a bare string is a distinct kind of
thrown value, which nothing in the modelled pipeline ever throws.
Modelled from the spec: system errors are structured objects with a code
field, not bare strings (design note on the error-as-string-literal check). -/
inductive JsError where
  | obj (code : String) (message : String)
  | str (s : String)
deriving DecidableEq

/-- Model of fs.unlinkSync: remove the named file, or throw an ENOENT system
error when it does not exist. -/
def unlinkSync (fsFiles : List String) (name : String) :
    Except JsError (List String) :=
  if name ∈ fsFiles then .ok (fsFiles.erase name)
  else .error (JsError.obj "ENOENT" "no such file or directory")

/-- The eviction loop of loadEntryWithPuppeteer (data.js:266-268): unlink
each stale cache file in turn; an unlink failure propagates (there is no
try/catch around it). -/
def evictStale (fsFiles : List String) :
    List String → Except JsError (List String)
  | [] => .ok fsFiles
  | n :: rest =>
    match unlinkSync fsFiles n with
    | .error e => .error e
    | .ok fs2 => evictStale fs2 rest

/-- The stale set computed at data.js:260-264: the listed cache file names
(deduplicated, as a JavaScript Set) minus the current entry file names. -/
def staleCaches (cacheListing entriesNames : List String) : List String :=
  cacheListing.dedup.filter (fun n => decide (n ∉ entriesNames))

/-- JavaScript String.prototype.slice end index: a negative index counts from
the end (clamped at 0), a nonnegative one is clamped at the length. -/
def jsSliceEnd (len : Nat) (e : Int) : Nat :=
  if e < 0 then ((len : Int) + e).toNat else min e.toNat len

/-- Entry identifier recovered from an entries-store file name
(data.js:270-273): `entryHashFile.slice(0, length - '.json'.length)`. -/
def entryHashOfFile (name : String) : String :=
  name.take (jsSliceEnd name.length ((name.length : Int) - 5))

/-- One observable action on the shared browser collaborator: a loadContent
invocation for an entry, or a close (release) call. -/
inductive PEvent where
  | load (entryHash : String)
  | close
deriving DecidableEq

/-- Outcome of one loadContent invocation: extracted content, no content
(null), or a thrown error. -/
inductive FetchResult where
  | ok (content : String)
  | noContent
  | err (e : JsError)

/-- State threaded through the fill loop: the readability output store and
the trace of browser-collaborator events so far. -/
structure FillState where
  readability : Store EntryData
  trace : List PEvent
deriving DecidableEq

/-- The try block of the fill loop (data.js:296-314): invoke loadContent; on
no content skip (after close); on content, minify (the html-minifier
collaborator, which may itself throw) and persist the enriched record, then
close. Returns the browser events of the block paired with either the
updated readability store or the thrown error. -/
def fillTryBody (fetch : EntryData → FetchResult)
    (minify : String → Except JsError String) (entryHash : String)
    (data : EntryData) (readability : Store EntryData) :
    List PEvent × Except JsError (Store EntryData) :=
  match fetch data with
  | .err e => ([.load entryHash], .error e)
  | .noContent => ([.load entryHash, .close], .ok readability)
  | .ok content =>
    match minify content with
    | .error e => ([.load entryHash], .error e)
    | .ok m =>
      ([.load entryHash, .close],
       .ok (writeFile readability (entryHash ++ ".json")
         { data with content := some m }))

/-- One iteration of the fill loop (data.js:269-320) over an entries-store
file: if the durable workspace cache already holds the entry's record (the
statSync probe succeeds), skip entirely; otherwise run the try block, and on
a thrown error run the catch (data.js:315-319): log, close, continue. The
entry file's content is read from the store pair itself (listing and store
are two views of the same directory). -/
def processEntry (fetch : EntryData → FetchResult)
    (minify : String → Except JsError String) (workspaceCache : List String)
    (st : FillState) (file : String × EntryData) : FillState :=
  let entryHash := entryHashOfFile file.1
  if decide ((entryHash ++ ".json") ∈ workspaceCache) then st
  else
    match fillTryBody fetch minify entryHash file.2 st.readability with
    | (evs, .ok rd) => { readability := rd, trace := st.trace ++ evs }
    | (evs, .error _) => { st with trace := st.trace ++ evs ++ [.close] }

/-- The fill loop of loadEntryWithPuppeteer: process every entries-store
file in directory order, sequentially. -/
def fillLoop (fetch : EntryData → FetchResult)
    (minify : String → Except JsError String) (workspaceCache : List String)
    (st : FillState) : Store EntryData → FillState
  | [] => st
  | file :: rest =>
    fillLoop fetch minify workspaceCache
      (processEntry fetch minify workspaceCache st file) rest

/-- loadEntryWithPuppeteer (data.js:258-321): list the entries store and the
durable workspace cache, delete the stale cache files (eviction), then fill:
enrich every uncached entry. The actual cache directory contents
(`fsCache`) are taken separately from the listing so that a file deleted
behind the listing's back is representable; in an undisturbed run they
coincide. -/
def loadEntryWithPuppeteer (fetch : EntryData → FetchResult)
    (minify : String → Except JsError String) (entriesStore : Store EntryData)
    (cacheListing fsCache : List String) (readability : Store EntryData) :
    Except JsError (List String × FillState) :=
  match evictStale fsCache
      (staleCaches cacheListing (entriesStore.map (fun q => q.1))) with
  | .error e => .error e
  | .ok fs2 =>
    .ok (fs2, fillLoop fetch minify fs2 ⟨readability, []⟩ entriesStore)

/-- prepareEleventyData (data.js:364-390), as a function of the combined
outcome of its phases (directory setup, repository data, category
aggregation, global indexing, cache reconciliation): on a thrown error the
catch compares it against the string literal ENOENT; unless the thrown value
is that exact string, core.setFailed is called and the error is re-thrown.
Returns the argument passed to core.setFailed (if any) and the final
outcome. -/
def prepareEleventyData (phases : Except JsError Unit) :
    Option JsError × Except JsError Unit :=
  match phases with
  | .ok _ => (none, .ok ())
  | .error e =>
    if e ≠ JsError.str "ENOENT" then (some e, .error e) else (none, .ok ())

/-- Deleting a duplicate-free batch of files that all exist succeeds and
leaves exactly the files outside the batch. -/
theorem evictStale_removes (todo : List String) (fsc : List String)
    (hfsc : fsc.Nodup) (htodo : todo.Nodup) (hsub : ∀ n ∈ todo, n ∈ fsc) :
    evictStale fsc todo = .ok (fsc.filter (fun x => decide (x ∉ todo))) := by
  induction todo generalizing fsc with
  | nil => simp [evictStale]
  | cons n rest ih =>
    have hn : n ∈ fsc := hsub n (List.mem_cons_self n rest)
    have hcons := List.nodup_cons.mp htodo
    have hstep : evictStale fsc (n :: rest) = evictStale (fsc.erase n) rest := by
      simp [evictStale, unlinkSync, hn]
    rw [hstep, ih (fsc.erase n) (hfsc.erase n) hcons.2 ?_]
    · congr 1
      rw [hfsc.erase_eq_filter n, List.filter_filter]
      apply List.filter_congr
      intro x _
      by_cases h1 : x = n <;> by_cases h2 : x ∈ rest <;>
        simp [h1, h2, List.mem_cons]
    · intro m hm
      have hmn : m ≠ n := fun hc => hcons.1 (hc ▸ hm)
      exact (List.mem_erase_of_ne hmn).mpr (hsub m (List.mem_cons_of_mem n hm))

/-- C2: with the durable cache directory matching its listing (file names are
duplicate-free, as a directory enumeration is), the eviction step of
loadEntryWithPuppeteer succeeds and removes exactly the cache files whose
name is not among the current entry file names, leaving every cache file
whose name is among them in place. -/
theorem c2_eviction_exact (cacheEntries entriesNames : List String)
    (h : cacheEntries.Nodup) :
    evictStale cacheEntries (staleCaches cacheEntries entriesNames)
      = .ok (cacheEntries.filter (fun n => decide (n ∈ entriesNames))) := by
  rw [evictStale_removes (staleCaches cacheEntries entriesNames) cacheEntries h
    ((List.nodup_dedup cacheEntries).filter _)
    (fun n hn => List.mem_dedup.mp (List.mem_of_mem_filter hn))]
  congr 1
  apply List.filter_congr
  intro x hx
  by_cases hmem : x ∈ entriesNames
  · have : x ∉ staleCaches cacheEntries entriesNames := by
      intro hc
      have := List.of_mem_filter hc
      simp [hmem] at this
    simp [hmem, this]
  · have : x ∈ staleCaches cacheEntries entriesNames :=
      List.mem_filter.mpr ⟨List.mem_dedup.mpr hx, by simp [hmem]⟩
    simp [hmem, this]

/-- Witness for C2: prior cache {a, b, c} and current entries {b, c, d}; a is
removed, b and c remain. -/
theorem c2_eviction_exact_witness :
    (["a.json", "b.json", "c.json"] : List String).Nodup
    ∧ evictStale ["a.json", "b.json", "c.json"]
        (staleCaches ["a.json", "b.json", "c.json"]
          ["b.json", "c.json", "d.json"])
      = .ok (["a.json", "b.json", "c.json"].filter
          (fun n => decide (n ∈ ["b.json", "c.json", "d.json"]))) :=
  ⟨by decide,
   c2_eviction_exact ["a.json", "b.json", "c.json"]
     ["b.json", "c.json", "d.json"] (by decide)⟩

/-- C3: for an entry whose record already exists in the durable workspace
cache (the statSync probe succeeds), the fill loop performs no action at all:
no loadContent invocation (no browser event is traced) and no store change —
in particular the existing cache record is untouched, and a repeated run
over an unchanged entry set fetches nothing for already-cached entries. -/
theorem c3_cached_entry_skipped (fetch : EntryData → FetchResult)
    (minify : String → Except JsError String) (workspaceCache : List String)
    (st : FillState) (name : String) (data : EntryData)
    (h : (entryHashOfFile name ++ ".json") ∈ workspaceCache) :
    processEntry fetch minify workspaceCache st (name, data) = st := by
  simp [processEntry, h]

/-- Fetch collaborator returning no content, for witnesses. -/
def fetchNone : EntryData → FetchResult := fun _ => .noContent

/-- Fetch collaborator that always throws, for witnesses. -/
def fetchErr : EntryData → FetchResult :=
  fun _ => .err (JsError.obj "Error" "net::ERR_FAILED")

/-- Minifier collaborator that returns its input unchanged, for witnesses. -/
def minifyId : String → Except JsError String := fun s => .ok s

/-- A concrete materialized entry record, for witnesses. -/
def sampleEntry : EntryData :=
  mkEntryData hashModel "tech" "A" "sa" ⟨"E1", "https://a/1", 100, "x"⟩

/-- Witness for C3: with the entry's record present in the workspace cache,
one fill iteration is the identity on the fill state. -/
theorem c3_cached_entry_skipped_witness :
    (entryHashOfFile "e1.json" ++ ".json") ∈ ["e1.json"]
    ∧ processEntry fetchNone minifyId ["e1.json"] ⟨[], []⟩
        ("e1.json", sampleEntry) = ⟨[], []⟩ :=
  ⟨by decide,
   c3_cached_entry_skipped fetchNone minifyId ["e1.json"] ⟨[], []⟩
     "e1.json" sampleEntry (by decide)⟩

/-- Browser events contributed by one fill iteration: nothing for a cached
entry, otherwise one loadContent invocation followed by one close, whatever
the fetch outcome. -/
def entryBlock (workspaceCache : List String) (file : String × EntryData) :
    List PEvent :=
  if decide ((entryHashOfFile file.1 ++ ".json") ∈ workspaceCache) then []
  else [.load (entryHashOfFile file.1), .close]

/-- One fill iteration appends exactly its entry block to the trace. -/
theorem processEntry_trace (fetch : EntryData → FetchResult)
    (minify : String → Except JsError String) (workspaceCache : List String)
    (st : FillState) (file : String × EntryData) :
    (processEntry fetch minify workspaceCache st file).trace
      = st.trace ++ entryBlock workspaceCache file := by
  unfold processEntry entryBlock
  by_cases h : (entryHashOfFile file.1 ++ ".json") ∈ workspaceCache
  · simp [h]
  · simp only [h, decide_False, if_false]
    unfold fillTryBody
    cases hf : fetch file.2 with
    | err e => simp
    | noContent => simp
    | ok content =>
      cases hm : minify content with
      | error e => simp [hm]
      | ok m => simp [hm]

/-- The fill loop's trace is the concatenation of the entry blocks, in
directory order. -/
theorem fillLoop_trace (fetch : EntryData → FetchResult)
    (minify : String → Except JsError String) (workspaceCache : List String)
    (st : FillState) (files : Store EntryData) :
    (fillLoop fetch minify workspaceCache st files).trace
      = st.trace ++ files.flatMap (entryBlock workspaceCache) := by
  induction files generalizing st with
  | nil => simp [fillLoop]
  | cons file rest ih =>
    rw [fillLoop, ih, processEntry_trace, List.flatMap_cons, List.append_assoc]

/-- Checks that a browser-event trace is a sequence of loadContent/close
pairs: every fetch is released before the next fetch begins. -/
def wellBracketed : List PEvent → Bool
  | [] => true
  | .load _ :: .close :: rest => wellBracketed rest
  | _ => false

/-- A concatenation of entry blocks is well bracketed. -/
theorem wellBracketed_flatMap (workspaceCache : List String)
    (files : Store EntryData) :
    wellBracketed (files.flatMap (entryBlock workspaceCache)) = true := by
  induction files with
  | nil => rfl
  | cons file rest ih =>
    rw [List.flatMap_cons]
    by_cases h : (entryHashOfFile file.1 ++ ".json") ∈ workspaceCache
    · rw [show entryBlock workspaceCache file = [] from by simp [entryBlock, h]]
      simpa using ih
    · rw [show entryBlock workspaceCache file
          = [.load (entryHashOfFile file.1), .close] from by
        simp [entryBlock, h]]
      simpa [wellBracketed] using ih

/-- C4: in every execution of the fill loop, the browser-event trace is a
sequence of loadContent/close pairs: each loadContent invocation — content,
no content, or thrown error — is followed by a close before the next entry
is processed, and loadContent is never invoked twice without an intervening
close. -/
theorem c4_release_after_every_fetch (fetch : EntryData → FetchResult)
    (minify : String → Except JsError String) (workspaceCache : List String)
    (readability : Store EntryData) (files : Store EntryData) :
    wellBracketed
        (fillLoop fetch minify workspaceCache ⟨readability, []⟩ files).trace
      = true := by
  rw [fillLoop_trace]
  exact wellBracketed_flatMap workspaceCache files

/-- C5: errors during one entry's enrichment are handled locally. A thrown
loadContent error on an uncached entry leaves the readability store
untouched (no cache record is written), appends only the load and the
catch's close to the trace, and the loop goes on to the remaining entries;
whenever eviction succeeded, the reconciler as a whole returns normally —
the total fold over every entry — so no per-entry enrichment error
propagates out of loadEntryWithPuppeteer. -/
theorem c5_enrichment_errors_isolated (fetch : EntryData → FetchResult)
    (minify : String → Except JsError String) (workspaceCache : List String)
    (st : FillState) (name : String) (data : EntryData) (e : JsError)
    (herr : fetch data = .err e)
    (hmiss : (entryHashOfFile name ++ ".json") ∉ workspaceCache) :
    processEntry fetch minify workspaceCache st (name, data)
      = { st with
          trace := st.trace ++ [.load (entryHashOfFile name), .close] }
    ∧ ∀ (es : Store EntryData) (cacheListing fsCache : List String)
        (readability : Store EntryData) (fs2 : List String),
        evictStale fsCache
            (staleCaches cacheListing (es.map (fun q => q.1))) = .ok fs2 →
        loadEntryWithPuppeteer fetch minify es cacheListing fsCache readability
          = .ok (fs2, fillLoop fetch minify fs2 ⟨readability, []⟩ es) := by
  constructor
  · unfold processEntry fillTryBody
    simp [hmiss, herr]
  · intro es cacheListing fsCache readability fs2 hevict
    unfold loadEntryWithPuppeteer
    rw [hevict]

/-- Witness for C5: a throwing fetch on an uncached entry leaves the store
empty and traces load then close; with empty stores the reconciler returns
normally. -/
theorem c5_enrichment_errors_isolated_witness :
    processEntry fetchErr minifyId [] ⟨[], []⟩ ("e1.json", sampleEntry)
      = { readability := [],
          trace := [] ++ [.load (entryHashOfFile "e1.json"), .close] }
    ∧ loadEntryWithPuppeteer fetchErr minifyId [] [] [] []
      = .ok ([], fillLoop fetchErr minifyId [] ⟨[], []⟩ []) :=
  ⟨(c5_enrichment_errors_isolated fetchErr minifyId [] ⟨[], []⟩ "e1.json"
      sampleEntry (JsError.obj "Error" "net::ERR_FAILED") rfl (by decide)).1,
   (c5_enrichment_errors_isolated fetchErr minifyId [] ⟨[], []⟩ "e1.json"
      sampleEntry (JsError.obj "Error" "net::ERR_FAILED") rfl (by decide)).2
     [] [] [] [] [] rfl⟩

/-- C6: an unrecoverable error raised during directory setup, category
aggregation or global indexing is a structured system or parser error, an
object with a code and message; it is never equal to the bare string the
top-level catch compares against, so prepareEleventyData reports the run as
failed to the CI host (core.setFailed receives the error) and re-raises it —
no such fatal error is silently swallowed. -/
theorem c6_fatal_errors_surface (code message : String) :
    prepareEleventyData (.error (JsError.obj code message))
      = (some (JsError.obj code message),
         .error (JsError.obj code message)) := by
  simp [prepareEleventyData]

/-- C9, evaluated at the failing input: with the cache listing naming
stale.json, no current entries, and the file already gone from the cache
directory, the eviction's unlinkSync throws an ENOENT system error with no
surrounding try/catch, so the reconciler aborts; and because the top-level
catch compares the thrown Error object against the string literal ENOENT
(`error !== 'ENOENT'`), which an object never equals, prepareEleventyData
reports the run failed and re-raises — eviction is not idempotent for
already-deleted files, contrary to the claim. -/
theorem c9_missing_file_aborts_run :
    loadEntryWithPuppeteer fetchNone minifyId [] ["stale.json"] [] []
      = .error (JsError.obj "ENOENT" "no such file or directory")
    ∧ prepareEleventyData
        (.error (JsError.obj "ENOENT" "no such file or directory"))
      = (some (JsError.obj "ENOENT" "no such file or directory"),
         .error (JsError.obj "ENOENT" "no such file or directory")) := by
  constructor
  · rfl
  · simp [prepareEleventyData]
